import Mathlib

/-!
Verification of the scope-resolution and selector-rewrite engine of
postcss-icss-selectors.

The repository ships its test suite (embedded next to package.json) and an
example, but the plugin implementation itself (src/index.js, the
localize/scope-resolution engine) is not present under src/.  The
definitions below are therefore modelled from the specification (spec.md
sections 3, 4, 6, 7) and checked against the expected inputs/outputs of the
repository's own test suite, which is the only executable source in the
tree.

Modelling conventions:
- a parsed selector is a sequence of tagged nodes, as produced by the
  external css-selector-tokenizer contract of spec section 6 (class, id,
  element, attribute, universal, spacing, combinator, plain pseudo,
  functional pseudo with a nested argument);
- the descendant combinator is a spacing node; other combinators carry
  their surrounding whitespace in their value;
- a comma-separated selector list is a list of branches; the text after a
  comma separator is one space, so stringifying a branch list rebuilds the
  original selector text of the rule;
- errors are values of an error type, one constructor per entry of the
  error taxonomy of spec section 7.
-/

mutual

/-- Selector node (spec section 3): immutable tagged value.  Functional
pseudo nodes (`nested`) own a nested node sequence, their argument. -/
inductive Node where
  | cls (name : String)
  | idn (name : String)
  | elem (name : String)
  | attr (content : String)
  | univ
  | spacing (value : String)
  | op (value : String)
  | pseudo (name : String)
  | nested (name : String) (arg : NodeList)
deriving Repr

/-- A selector: ordered sequence of selector nodes (one comma-branch). -/
inductive NodeList where
  | nil
  | cons (head : Node) (tail : NodeList)
deriving Repr

end

/-- Build a NodeList from a Lean list literal. -/
def NL : List Node → NodeList
  | [] => .nil
  | n :: r => .cons n (NL r)

/-- Error taxonomy of the transform (spec section 7). -/
inductive Err where
  | config (mode : String)
  | spacingAfter (name : String)
  | spacingBefore (name : String)
  | nestedScope (inner outer : String)
  | inconsistent (selector : String)
  | notPure (selector : String)
deriving Repr, DecidableEq

/-- Modelled from the spec: error messages of the missing implementation
(spec section 7 names the side and keyword for SpacingError, the offending
construct and its container for NestedScopeError, and the literal original
selector text for InconsistentSelectorError and NotPureError; the test
suite pins the exact phrases "Missing whitespace after :global",
"Missing whitespace before :local", "is not allowed inside",
"Inconsistent" and "... is not pure"). -/
def Err.message : Err → String
  | .config m => "Invalid mode " ++ m ++ ", must be \"global\", \"local\" or \"pure\""
  | .spacingAfter n => "Missing whitespace after :" ++ n
  | .spacingBefore n => "Missing whitespace before :" ++ n
  | .nestedScope x y => "A " ++ x ++ " is not allowed inside of a " ++ y
  | .inconsistent s =>
      "Inconsistent rule global/local result in rule \"" ++ s ++
        "\" (multiple selectors must result in the same mode for the rule)"
  | .notPure s =>
      "Selector \"" ++ s ++ "\" is not pure (pure selectors must contain at least one local class or id)"

/-- Scope context of the walk (spec section 3): active mode (`global` is
true when the active mode is the global one), the name of the enclosing
narrow override if any (`inside`), the spacing bookkeeping of broad
overrides and the has-a-local-been-produced flag used by the pure-mode
validator. -/
structure Ctx where
  global : Bool
  inside : Option String := none
  lastWasSpacing : Bool := true
  ignoreNextSpacing : Option String := none
  enforceNoSpacing : Option String := none
  hasLocals : Bool := false
deriving Repr, DecidableEq

/-- Reset the per-node spacing bookkeeping after emitting a node. -/
def Ctx.clear (c : Ctx) : Ctx :=
  { c with lastWasSpacing := false, ignoreNextSpacing := none, enforceNoSpacing := none }

/-- Spacing (descendant-combinator / whitespace) node test. -/
def Node.isSpacing : Node → Bool
  | .spacing _ => true
  | _ => false

/-- Append two node sequences. -/
def NodeList.append : NodeList → NodeList → NodeList
  | .nil, l => l
  | .cons n t, l => .cons n (NodeList.append t l)

/-- Drop leading spacing nodes of a node sequence. -/
def NodeList.dropLeadingSpacing : NodeList → NodeList
  | .nil => .nil
  | .cons n rest => if n.isSpacing then rest.dropLeadingSpacing else .cons n rest

/-- Drop trailing spacing nodes of a node sequence (the normalisation the
emitter applies to every rewritten selector sequence). -/
def NodeList.dropTrailingSpacing : NodeList → NodeList
  | .nil => .nil
  | .cons n rest =>
      match rest.dropTrailingSpacing with
      | .nil => if n.isSpacing then .nil else .cons n .nil
      | r => .cons n r

/-- Whitespace-normalise the argument of a narrow override before splicing
it into the surrounding sequence (spec section 4.3 step 2: the emitted
narrow markers are whitespace-normalised). -/
def NodeList.trimSpacing (l : NodeList) : NodeList :=
  l.dropLeadingSpacing.dropTrailingSpacing

/-- Name of the two override pseudo-classes. -/
def isScopeName (s : String) : Bool := s == "local" || s == "global"

/-- Outcome of the spacing bookkeeping that precedes the per-kind handling
of a node. -/
inductive Pre where
  | err (e : Err)
  | drop (ctx : Ctx)
  | go (ctx : Ctx)

/-- Modelled from the spec: the broad-override spacing discipline of the
missing implementation (spec section 4.3 step 1).  After a broad override
that followed whitespace, the next node must be whitespace and is consumed
(otherwise SpacingError "after"); after a broad override that directly
followed a simple selector, the next node must not be whitespace
(otherwise SpacingError "before"). -/
def preCheck (ctx : Ctx) (spacingNode : Bool) : Pre :=
  match ctx.ignoreNextSpacing with
  | some name =>
      if spacingNode then
        .drop { ctx with ignoreNextSpacing := none, enforceNoSpacing := none,
                         lastWasSpacing := false }
      else .err (.spacingAfter name)
  | none =>
      match ctx.enforceNoSpacing with
      | some name => if spacingNode then .err (.spacingBefore name) else .go ctx
      | none => .go ctx

mutual

/-- Modelled from the spec: the Scope Resolver of the missing
implementation (spec section 4.3), one step.  Resolves one node under the
current context and returns the updated context together with the rewritten
node sequence this node contributes (empty for consumed override markers
and consumed whitespace). -/
def resolveNode (ctx : Ctx) (n : Node) : Except Err (Ctx × NodeList) :=
  match preCheck ctx n.isSpacing with
  | .err e => .error e
  | .drop c => .ok (c, .nil)
  | .go c =>
      match n with
      | .spacing v => .ok ({ c with lastWasSpacing := true }, .cons (.spacing v) .nil)
      | .pseudo name =>
          if isScopeName name then
            match c.inside with
            | some i => .error (.nestedScope (":" ++ name) (":" ++ i ++ "(...)"))
            | none =>
                .ok ({ c with
                         ignoreNextSpacing := if c.lastWasSpacing then some name else none,
                         enforceNoSpacing := if c.lastWasSpacing then none else some name,
                         global := name == "global" }, .nil)
          else
            .ok (c.clear, .cons (.pseudo name) .nil)
      | .cls nm =>
          if c.global then .ok (c.clear, .cons (.cls nm) .nil)
          else .ok ({ c.clear with hasLocals := true },
                    .cons (.nested "local" (.cons (.cls nm) .nil)) .nil)
      | .idn nm =>
          if c.global then .ok (c.clear, .cons (.idn nm) .nil)
          else .ok ({ c.clear with hasLocals := true },
                    .cons (.nested "local" (.cons (.idn nm) .nil)) .nil)
      | .nested name arg =>
          if isScopeName name then
            match c.inside with
            | some i => .error (.nestedScope (":" ++ name ++ "(...)") (":" ++ i ++ "(...)"))
            | none =>
                match resolveNodes { global := name == "global", inside := some name } arg with
                | .error e => .error e
                | .ok (sub2, out) =>
                    .ok ({ c.clear with hasLocals := c.hasLocals || sub2.hasLocals },
                         out.trimSpacing)
          else
            match resolveNodes { global := c.global, inside := c.inside } arg with
            | .error e => .error e
            | .ok (sub2, out) =>
                .ok ({ c.clear with hasLocals := c.hasLocals || sub2.hasLocals },
                     .cons (.nested name out.dropTrailingSpacing) .nil)
      | m => .ok (c.clear, .cons m .nil)
termination_by structural n

/-- Modelled from the spec: the Scope Resolver of the missing
implementation (spec section 4.3), left-to-right walk over one selector's
node sequence, threading the scope context. -/
def resolveNodes (ctx : Ctx) (l : NodeList) : Except Err (Ctx × NodeList) :=
  match l with
  | .nil => .ok (ctx, .nil)
  | .cons n rest =>
      match resolveNode ctx n with
      | .error e => .error e
      | .ok (c1, out1) =>
          match resolveNodes c1 rest with
          | .error e => .error e
          | .ok (c2, out2) => .ok (c2, out1.append out2)
termination_by structural l

end

mutual

/-- Stringifier for one node (external tokenizer contract, spec
section 6). -/
def strNode (n : Node) : String :=
  match n with
  | .cls s => "." ++ s
  | .idn s => "#" ++ s
  | .elem s => s
  | .attr c => "[" ++ c ++ "]"
  | .univ => "*"
  | .spacing v => v
  | .op v => v
  | .pseudo s => ":" ++ s
  | .nested s arg => ":" ++ s ++ "(" ++ strNodes arg ++ ")"
termination_by structural n

/-- Stringifier for a node sequence. -/
def strNodes (l : NodeList) : String :=
  match l with
  | .nil => ""
  | .cons n rest => strNode n ++ strNodes rest
termination_by structural l

end

/-- Stringifier for a comma-separated selector list. -/
def strSels (sels : List NodeList) : String :=
  String.intercalate ", " (sels.map strNodes)

/-- Configured mode of the plugin (spec section 6): "global", "local" or
"pure"; the default is "local". -/
inductive Mode where
  | global
  | local
  | pure
deriving Repr, DecidableEq

/-- Default scope seeded into each branch: global exactly for mode
"global" (mode "pure" seeds local, spec section 3). -/
def Mode.defGlobal : Mode → Bool
  | .global => true
  | _ => false

/-- Modelled from the spec: the per-rule branch loop of the missing
implementation (spec section 4.4).  Resolves each comma-branch under a
fresh context seeded from the configured default mode, performs the
cross-branch consistency check (every branch must end in the same
global/local result as the first; otherwise InconsistentSelectorError
naming the original selector text), and accumulates whether some branch
produced no locally-scoped node (the pure-mode condition). -/
def resolveBranches (defGlobal : Bool) (orig : String) (firstGlobal : Option Bool) :
    List NodeList → Except Err (List NodeList × Bool)
  | [] => .ok ([], false)
  | b :: rest =>
      match resolveNodes { global := defGlobal } b with
      | .error e => .error e
      | .ok (c, out) =>
          match firstGlobal with
          | some g =>
              if c.global == g then
                match resolveBranches defGlobal orig (some g) rest with
                | .error e => .error e
                | .ok (outs, pg) =>
                    .ok (out.dropTrailingSpacing :: outs, pg || !c.hasLocals)
              else .error (.inconsistent orig)
          | none =>
              match resolveBranches defGlobal orig (some c.global) rest with
              | .error e => .error e
              | .ok (outs, pg) => .ok (out.dropTrailingSpacing :: outs, pg || !c.hasLocals)

/-- Modelled from the spec: the selector-list transform of the missing
implementation (spec sections 4.3 to 4.4): resolve every branch, then, if
pure mode is configured, reject the rule with NotPureError naming the
original selector text when some branch contains no locally-scoped
class/id. -/
def localize (mode : Mode) (sels : List NodeList) : Except Err (List NodeList) :=
  match resolveBranches mode.defGlobal (strSels sels) none sels with
  | .error e => .error e
  | .ok (outs, pureGlobals) =>
      match mode, pureGlobals with
      | .pure, true => .error (.notPure (strSels sels))
      | _, _ => .ok outs

/-- A CSS rule as seen by the rule orchestrator: its parsed selector list
and its child node list, which postcss may leave absent
(`nodes = none`). The declarations themselves are irrelevant to the
transform and modelled as plain strings. -/
structure Rule where
  selector : List NodeList
  nodes : Option (List String)

/-- Modelled from the spec: the per-rule orchestrator step of the missing
implementation (spec section 4.4) on an eligible rule.  The walk visits
every rule and rewrites its selector list; the rule's own child node list
plays no role in the rewrite, as pinned by the repository's test
"not crash on a rule without nodes", whose expected output localizes the
selector of the body-less rule. -/
def transformRule (mode : Mode) (r : Rule) : Except Err Rule :=
  match localize mode r.selector with
  | .error e => .error e
  | .ok outs => .ok { r with selector := outs }

/-- A node sequence that is exactly one class or one id. -/
def isSingleClsId : NodeList → Bool
  | .cons (.cls _) .nil => true
  | .cons (.idn _) .nil => true
  | _ => false

mutual

/-- A node contains a locally-scoped class/id: it is a class or id wrapped
in the narrow local marker, or such a wrapped node occurs inside its
nested argument. -/
def nodeScoped (n : Node) : Bool :=
  match n with
  | .nested name arg => (name == "local" && isSingleClsId arg) || listScoped arg
  | _ => false
termination_by structural n

/-- A node sequence contains a locally-scoped class/id somewhere
(possibly nested). -/
def listScoped (l : NodeList) : Bool :=
  match l with
  | .nil => false
  | .cons n rest => nodeScoped n || listScoped rest
termination_by structural l

end

/-- Whitespace nodes never count as locally-scoped content. -/
theorem nodeScoped_of_isSpacing (n : Node) (h : n.isSpacing = true) : nodeScoped n = false := by
  cases n <;> first
    | rfl
    | simp [Node.isSpacing] at h

/-- Scoped-content search distributes over appending node sequences. -/
theorem listScoped_append (a b : NodeList) :
    listScoped (a.append b) = (listScoped a || listScoped b) := by
  cases a with
  | nil => simp [NodeList.append, listScoped]
  | cons n t =>
      simp [NodeList.append, listScoped, listScoped_append t b, Bool.or_assoc]
termination_by structural a

/-- Dropping leading whitespace does not change whether a sequence contains
a locally-scoped class/id. -/
theorem listScoped_dropLeadingSpacing (l : NodeList) :
    listScoped l.dropLeadingSpacing = listScoped l := by
  cases l with
  | nil => rfl
  | cons n t =>
      rw [NodeList.dropLeadingSpacing]
      by_cases hs : n.isSpacing = true
      · simp [hs, listScoped_dropLeadingSpacing t, listScoped, nodeScoped_of_isSpacing n hs]
      · simp [hs]
termination_by structural l

/-- Dropping trailing whitespace does not change whether a sequence contains
a locally-scoped class/id. -/
theorem listScoped_dropTrailingSpacing (l : NodeList) :
    listScoped l.dropTrailingSpacing = listScoped l := by
  cases l with
  | nil => rfl
  | cons n t =>
      rw [NodeList.dropTrailingSpacing]
      have ih := listScoped_dropTrailingSpacing t
      cases hdt : t.dropTrailingSpacing with
      | nil =>
          rw [hdt] at ih
          by_cases hs : n.isSpacing = true
          · simp [hs, listScoped, nodeScoped_of_isSpacing n hs, ← ih]
          · simp [hs, listScoped, ← ih]
      | cons m r =>
          rw [hdt] at ih
          simp [listScoped, ← ih]
termination_by structural l

/-- Whitespace normalisation does not change whether a sequence contains a
locally-scoped class/id. -/
theorem listScoped_trimSpacing (l : NodeList) :
    listScoped l.trimSpacing = listScoped l := by
  rw [NodeList.trimSpacing, listScoped_dropTrailingSpacing, listScoped_dropLeadingSpacing]

/-- When the spacing bookkeeping lets a node through, the context is
unchanged. -/
theorem preCheck_go (c : Ctx) (b : Bool) (c' : Ctx) (h : preCheck c b = .go c') : c' = c := by
  unfold preCheck at h
  cases hig : c.ignoreNextSpacing with
  | some name =>
      rw [hig] at h
      cases b <;> simp at h
  | none =>
      rw [hig] at h
      cases henf : c.enforceNoSpacing with
      | some name =>
          rw [henf] at h
          cases b <;> simp at h
          exact h.symm
      | none =>
          rw [henf] at h
          cases h
          rfl

/-- Consuming the whitespace after a broad override does not touch the
has-locals flag. -/
theorem preCheck_drop (c : Ctx) (b : Bool) (c' : Ctx) (h : preCheck c b = .drop c') :
    c'.hasLocals = c.hasLocals := by
  unfold preCheck at h
  cases hig : c.ignoreNextSpacing with
  | some name =>
      rw [hig] at h
      cases b <;> simp at h
      rw [← h]
  | none =>
      rw [hig] at h
      cases henf : c.enforceNoSpacing with
      | some name =>
          rw [henf] at h
          cases b <;> simp at h
      | none =>
          rw [henf] at h
          cases h

mutual

/-- If resolving one node raises the has-locals flag then either it was
already raised, or the emitted sequence contains a locally-scoped class/id. -/
theorem resolveNode_hasLocals (ctx : Ctx) (n : Node) (c2 : Ctx) (out : NodeList)
    (h : resolveNode ctx n = .ok (c2, out)) (hl : c2.hasLocals = true) :
    ctx.hasLocals = true ∨ listScoped out = true := by
  rw [resolveNode] at h
  cases hpre : preCheck ctx n.isSpacing with
  | err e => rw [hpre] at h; cases h
  | drop c =>
      rw [hpre] at h
      simp only [Except.ok.injEq, Prod.mk.injEq] at h
      obtain ⟨hc, ho⟩ := h
      left
      rw [← preCheck_drop ctx n.isSpacing c hpre, hc, hl]
  | go c =>
      have hcc := preCheck_go ctx n.isSpacing c hpre
      subst hcc
      rw [hpre] at h
      cases n with
      | spacing v =>
          dsimp only at h
          simp only [Except.ok.injEq, Prod.mk.injEq] at h
          obtain ⟨hc, ho⟩ := h
          left; rw [← hc] at hl; exact hl
      | pseudo name =>
          dsimp only at h
          by_cases hsc : isScopeName name = true
          · rw [if_pos hsc] at h
            cases hin : c.inside with
            | some i => rw [hin] at h; cases h
            | none =>
                rw [hin] at h
                simp only [Except.ok.injEq, Prod.mk.injEq] at h
                obtain ⟨hc, ho⟩ := h
                left; rw [← hc] at hl; exact hl
          · rw [if_neg hsc] at h
            simp only [Except.ok.injEq, Prod.mk.injEq] at h
            obtain ⟨hc, ho⟩ := h
            left; rw [← hc] at hl; exact hl
      | cls nm =>
          dsimp only at h
          by_cases hg : c.global = true
          · rw [if_pos hg] at h
            simp only [Except.ok.injEq, Prod.mk.injEq] at h
            obtain ⟨hc, ho⟩ := h
            left; rw [← hc] at hl; exact hl
          · rw [if_neg hg] at h
            simp only [Except.ok.injEq, Prod.mk.injEq] at h
            obtain ⟨hc, ho⟩ := h
            right; rw [← ho]; rfl
      | idn nm =>
          dsimp only at h
          by_cases hg : c.global = true
          · rw [if_pos hg] at h
            simp only [Except.ok.injEq, Prod.mk.injEq] at h
            obtain ⟨hc, ho⟩ := h
            left; rw [← hc] at hl; exact hl
          · rw [if_neg hg] at h
            simp only [Except.ok.injEq, Prod.mk.injEq] at h
            obtain ⟨hc, ho⟩ := h
            right; rw [← ho]; rfl
      | nested name arg =>
          dsimp only at h
          by_cases hsc : isScopeName name = true
          · rw [if_pos hsc] at h
            cases hin : c.inside with
            | some i => rw [hin] at h; cases h
            | none =>
                rw [hin] at h
                cases hres : resolveNodes { global := name == "global", inside := some name } arg with
                | error e => rw [hres] at h; cases h
                | ok p =>
                    obtain ⟨sub2, subout⟩ := p
                    rw [hres] at h
                    simp only [Except.ok.injEq, Prod.mk.injEq] at h
                    obtain ⟨hc, ho⟩ := h
                    rw [← hc] at hl
                    simp only [Bool.or_eq_true] at hl
                    cases hl with
                    | inl hctx => left; exact hctx
                    | inr hsub =>
                        have := resolveNodes_hasLocals _ arg sub2 subout hres hsub
                        cases this with
                        | inl habs => cases habs
                        | inr hsco =>
                            right
                            rw [← ho, listScoped_trimSpacing]
                            exact hsco
          · rw [if_neg hsc] at h
            cases hres : resolveNodes { global := c.global, inside := c.inside } arg with
            | error e => rw [hres] at h; cases h
            | ok p =>
                obtain ⟨sub2, subout⟩ := p
                rw [hres] at h
                simp only [Except.ok.injEq, Prod.mk.injEq] at h
                obtain ⟨hc, ho⟩ := h
                rw [← hc] at hl
                simp only [Bool.or_eq_true] at hl
                cases hl with
                | inl hctx => left; exact hctx
                | inr hsub =>
                    have := resolveNodes_hasLocals _ arg sub2 subout hres hsub
                    cases this with
                    | inl habs => cases habs
                    | inr hsco =>
                        right
                        rw [← ho]
                        show (nodeScoped (.nested name subout.dropTrailingSpacing) || listScoped .nil) = true
                        rw [nodeScoped]
                        simp [listScoped_dropTrailingSpacing, hsco]
      | elem nm =>
          dsimp only at h
          simp only [Except.ok.injEq, Prod.mk.injEq] at h
          obtain ⟨hc, ho⟩ := h
          left; rw [← hc] at hl; exact hl
      | attr s =>
          dsimp only at h
          simp only [Except.ok.injEq, Prod.mk.injEq] at h
          obtain ⟨hc, ho⟩ := h
          left; rw [← hc] at hl; exact hl
      | univ =>
          dsimp only at h
          simp only [Except.ok.injEq, Prod.mk.injEq] at h
          obtain ⟨hc, ho⟩ := h
          left; rw [← hc] at hl; exact hl
      | op v =>
          dsimp only at h
          simp only [Except.ok.injEq, Prod.mk.injEq] at h
          obtain ⟨hc, ho⟩ := h
          left; rw [← hc] at hl; exact hl
termination_by (sizeOf n, 0)

/-- If resolving a node sequence raises the has-locals flag then either it
was already raised, or the rewritten sequence contains a locally-scoped
class/id. -/
theorem resolveNodes_hasLocals (ctx : Ctx) (l : NodeList) (c2 : Ctx) (out : NodeList)
    (h : resolveNodes ctx l = .ok (c2, out)) (hl : c2.hasLocals = true) :
    ctx.hasLocals = true ∨ listScoped out = true := by
  cases l with
  | nil =>
      rw [resolveNodes] at h
      simp only [Except.ok.injEq, Prod.mk.injEq] at h
      obtain ⟨hc, ho⟩ := h
      left; rw [← hc] at hl; exact hl
  | cons n rest =>
      rw [resolveNodes] at h
      cases hr1 : resolveNode ctx n with
      | error e => rw [hr1] at h; cases h
      | ok p =>
          obtain ⟨c1, out1⟩ := p
          rw [hr1] at h
          dsimp only at h
          cases hr2 : resolveNodes c1 rest with
          | error e => rw [hr2] at h; cases h
          | ok q =>
              obtain ⟨c3, out2⟩ := q
              rw [hr2] at h
              simp only [Except.ok.injEq, Prod.mk.injEq] at h
              obtain ⟨hc, ho⟩ := h
              rw [← hc] at hl
              have h2 := resolveNodes_hasLocals c1 rest c3 out2 hr2 hl
              cases h2 with
              | inr hsco => right; rw [← ho, listScoped_append]; simp [hsco]
              | inl hc1 =>
                  have h1 := resolveNode_hasLocals ctx n c1 out1 hr1 hc1
                  cases h1 with
                  | inl hx => left; exact hx
                  | inr hsco => right; rw [← ho, listScoped_append]; simp [hsco]
termination_by (sizeOf l, 1)

end

/-- When the branch loop succeeds with a false pure-globals flag, every
rewritten branch contains a locally-scoped class/id. -/
theorem resolveBranches_scoped (dg : Bool) (orig : String) (fg : Option Bool)
    (bs : List NodeList) (outs : List NodeList)
    (h : resolveBranches dg orig fg bs = .ok (outs, false)) :
    ∀ b ∈ outs, listScoped b = true := by
  induction bs generalizing fg outs with
  | nil =>
      rw [resolveBranches] at h
      simp only [Except.ok.injEq, Prod.mk.injEq] at h
      obtain ⟨ho, -⟩ := h
      rw [← ho]
      intro b hb
      cases hb
  | cons hd tl ih =>
      rw [resolveBranches] at h
      cases hres : resolveNodes { global := dg } hd with
      | error e => rw [hres] at h; cases h
      | ok p =>
          obtain ⟨c, outhd⟩ := p
          rw [hres] at h
          dsimp only at h
          cases fg with
          | some g =>
              dsimp only at h
              by_cases hg : (c.global == g) = true
              · rw [if_pos hg] at h
                cases hrest : resolveBranches dg orig (some g) tl with
                | error e => rw [hrest] at h; cases h
                | ok q =>
                    obtain ⟨outs', pg⟩ := q
                    rw [hrest] at h
                    simp only [Except.ok.injEq, Prod.mk.injEq] at h
                    obtain ⟨ho, hpg⟩ := h
                    have hpg' : pg = false ∧ c.hasLocals = true := by
                      constructor
                      · cases pg
                        · rfl
                        · simp at hpg
                      · cases hcl : c.hasLocals
                        · rw [hcl] at hpg; simp at hpg
                        · rfl
                    intro b hb
                    rw [← ho] at hb
                    cases hb with
                    | head =>
                        have := resolveNodes_hasLocals { global := dg } hd c outhd hres hpg'.2
                        cases this with
                        | inl habs => cases habs
                        | inr hsco => rw [listScoped_dropTrailingSpacing]; exact hsco
                    | tail _ hmem =>
                        rw [hpg'.1] at hrest
                        exact ih (some g) outs' hrest b hmem
              · rw [if_neg hg] at h; cases h
          | none =>
              dsimp only at h
              cases hrest : resolveBranches dg orig (some c.global) tl with
              | error e => rw [hrest] at h; cases h
              | ok q =>
                  obtain ⟨outs', pg⟩ := q
                  rw [hrest] at h
                  simp only [Except.ok.injEq, Prod.mk.injEq] at h
                  obtain ⟨ho, hpg⟩ := h
                  have hpg' : pg = false ∧ c.hasLocals = true := by
                    constructor
                    · cases pg
                      · rfl
                      · simp at hpg
                    · cases hcl : c.hasLocals
                      · rw [hcl] at hpg; simp at hpg
                      · rfl
                  intro b hb
                  rw [← ho] at hb
                  cases hb with
                  | head =>
                      have := resolveNodes_hasLocals { global := dg } hd c outhd hres hpg'.2
                      cases this with
                      | inl habs => cases habs
                      | inr hsco => rw [listScoped_dropTrailingSpacing]; exact hsco
                  | tail _ hmem =>
                      rw [hpg'.1] at hrest
                      exact ih (some c.global) outs' hrest b hmem

/-- A selector list accepted under pure mode only contains branches with at
least one locally-scoped class/id. -/
theorem localize_pure_scoped (sels outs : List NodeList)
    (h : localize .pure sels = .ok outs) :
    ∀ b ∈ outs, listScoped b = true := by
  rw [localize] at h
  cases hrb : resolveBranches Mode.pure.defGlobal (strSels sels) none sels with
  | error e => rw [hrb] at h; cases h
  | ok p =>
      obtain ⟨outs', pg⟩ := p
      rw [hrb] at h
      cases pg with
      | true => cases h
      | false =>
          simp only [Except.ok.injEq] at h
          rw [← h]
          exact resolveBranches_scoped _ _ _ _ _ hrb

set_option maxHeartbeats 2000000

/-- Inside a narrow override (context `inside` set), encountering any broad
or narrow override node fails with NestedScopeError naming the offending
construct and its container (spec section 4.1). -/
theorem nestedOverride_inside (c : Ctx) (i nm : String) (arg : NodeList)
    (hin : c.inside = some i) (hig : c.ignoreNextSpacing = none)
    (hnm : isScopeName nm = true) :
    resolveNode c (.pseudo nm) = .error (.nestedScope (":" ++ nm) (":" ++ i ++ "(...)")) ∧
    resolveNode c (.nested nm arg) =
      .error (.nestedScope (":" ++ nm ++ "(...)") (":" ++ i ++ "(...)")) := by
  have hpre : preCheck c false = .go c := by
    rw [preCheck, hig]
    cases henf : c.enforceNoSpacing <;> simp
  constructor
  · rw [resolveNode]
    have : (Node.pseudo nm).isSpacing = false := rfl
    rw [this, hpre]
    dsimp only
    rw [if_pos hnm, hin]
  · rw [resolveNode]
    have : (Node.nested nm arg).isSpacing = false := rfl
    rw [this, hpre]
    dsimp only
    rw [if_pos hnm, hin]

/-- Claim C1, amended.  The original claim says a rule whose child node
list is absent passes through byte-identical; the repository's test
"not crash on a rule without nodes" instead expects the body-less rule's
selector to be localized (`.b` becomes `:local(.b)`).  Amended property:
the walk over a body-less rule does not crash, and the rule's child node
list plays no role in the rewrite: the transform of a rule with `nodes =
none` produces exactly the selector rewrite it would produce with a body,
and on the test's body-less rule `.b` it succeeds with selector
`:local(.b)`. -/
theorem claim_C1 :
    (∀ (mode : Mode) (sels : List NodeList) (body : List String),
        (transformRule mode { selector := sels, nodes := some body }).map Rule.selector =
          (transformRule mode { selector := sels, nodes := none }).map Rule.selector) ∧
    transformRule .local { selector := [NL [.cls "b"]], nodes := none } =
      .ok { selector := [NL [.nested "local" (NL [.cls "b"])]], nodes := none } := by
  constructor
  · intro mode sels body
    rw [transformRule, transformRule]
    cases hL : localize mode sels with
    | error e => rfl
    | ok outs => rfl
  · rfl

/-- Witness for claim C1: instantiates the body-irrelevance statement at a
concrete rule. -/
theorem claim_C1_witness :
    (transformRule .local { selector := [NL [.cls "a"]], nodes := some [] }).map Rule.selector =
      (transformRule .local { selector := [NL [.cls "a"]], nodes := none }).map Rule.selector :=
  claim_C1.1 .local [NL [.cls "a"]] []

/-- Counterexample to claim C1 as stated: the body-less rule `.b` is not
emitted as-is; the transform succeeds and rewrites its selector to
`:local(.b)`, which is not byte-identical to `.b`. -/
theorem claim_C1_counterexample :
    transformRule .local { selector := [NL [.cls "b"]], nodes := none } =
      .ok { selector := [NL [.nested "local" (NL [.cls "b"])]], nodes := none } ∧
    strSels [NL [.nested "local" (NL [.cls "b"])]] ≠ strSels [NL [.cls "b"]] := by
  refine ⟨rfl, ?_⟩
  decide

/-- Claim C2: under pure mode the transform succeeds only if every
comma-branch contains at least one scoped class/id node after resolution;
a branch with zero scoped nodes raises NotPureError naming the original
selector text; in particular `input {}` under pure mode raises
NotPureError whose message mentions "input", and the multi-branch
`.foo, :global(.bar) {}` fails naming the original selector text that
contains the offending branch. -/
theorem claim_C2 :
    (∀ (sels outs : List NodeList), localize .pure sels = .ok outs →
        ∀ b ∈ outs, listScoped b = true) ∧
    localize .pure [NL [.elem "input"]] = .error (.notPure "input") ∧
    (Err.notPure "input").message =
      "Selector \"" ++ "input" ++
        "\" is not pure (pure selectors must contain at least one local class or id)" ∧
    localize .pure [NL [.cls "foo"], NL [.nested "global" (NL [.cls "bar"])]] =
      .error (.notPure ".foo, :global(.bar)") :=
  ⟨localize_pure_scoped, by rfl, by rfl, by rfl⟩

/-- Witness for claim C2: instantiates the pure-success statement at the
concrete selector `.a`, whose resolution is `:local(.a)`. -/
theorem claim_C2_witness :
    listScoped (NL [Node.nested "local" (NL [Node.cls "a"])]) = true :=
  claim_C2.1 [NL [Node.cls "a"]] [NL [Node.nested "local" (NL [Node.cls "a"])]] (by rfl)
    (NL [Node.nested "local" (NL [Node.cls "a"])]) (by simp)

/-- Claim C3: `:global .foo, .bar {}` under default local mode raises
InconsistentSelectorError (it mixes a fully global branch with an
unannotated default branch), while `:global .foo, .bar :global,
.foobar :global {}`, where every branch carries an explicit override, is
accepted and yields `.foo, :local(.bar), :local(.foobar) {}`. -/
theorem claim_C3 :
    localize .local [NL [.pseudo "global", .spacing " ", .cls "foo"], NL [.cls "bar"]] =
      .error (.inconsistent ":global .foo, .bar") ∧
    (localize .local [NL [.pseudo "global", .spacing " ", .cls "foo"],
        NL [.cls "bar", .spacing " ", .pseudo "global"],
        NL [.cls "foobar", .spacing " ", .pseudo "global"]]).map strSels =
      .ok ".foo, :local(.bar), :local(.foobar)" :=
  ⟨by rfl, by rfl⟩

/-- Claim C4: a narrow override directly containing another narrow or
broad override of either kind raises NestedScopeError with a message of
the form "X is not allowed inside Y"; the general statement holds for any
context inside a narrow override, and all four combinations
`:local(:local(.foo))`, `:global(:global(.foo))`, `:local(:global(.foo))`
and `:global(:local .foo)` fail this way, with the exact messages
listed. -/
theorem claim_C4 :
    (∀ (c : Ctx) (i nm : String) (arg : NodeList),
        c.inside = some i → c.ignoreNextSpacing = none → isScopeName nm = true →
        resolveNode c (.pseudo nm) =
          .error (.nestedScope (":" ++ nm) (":" ++ i ++ "(...)")) ∧
        resolveNode c (.nested nm arg) =
          .error (.nestedScope (":" ++ nm ++ "(...)") (":" ++ i ++ "(...)"))) ∧
    localize .local [NL [.nested "local" (NL [.nested "local" (NL [.cls "foo"])])]] =
      .error (.nestedScope ":local(...)" ":local(...)") ∧
    localize .local [NL [.nested "global" (NL [.nested "global" (NL [.cls "foo"])])]] =
      .error (.nestedScope ":global(...)" ":global(...)") ∧
    localize .local [NL [.nested "local" (NL [.nested "global" (NL [.cls "foo"])])]] =
      .error (.nestedScope ":global(...)" ":local(...)") ∧
    localize .local [NL [.nested "global" (NL [.pseudo "local", .spacing " ", .cls "foo"])]] =
      .error (.nestedScope ":local" ":global(...)") ∧
    (Err.nestedScope ":local(...)" ":local(...)").message =
      "A :local(...) is not allowed inside of a :local(...)" ∧
    (Err.nestedScope ":global(...)" ":global(...)").message =
      "A :global(...) is not allowed inside of a :global(...)" ∧
    (Err.nestedScope ":global(...)" ":local(...)").message =
      "A :global(...) is not allowed inside of a :local(...)" ∧
    (Err.nestedScope ":local" ":global(...)").message =
      "A :local is not allowed inside of a :global(...)" :=
  ⟨fun c i nm arg hin hig hnm => nestedOverride_inside c i nm arg hin hig hnm,
   by rfl, by rfl, by rfl, by rfl, by rfl, by rfl, by rfl, by rfl⟩

/-- Witness for claim C4: instantiates the general nested-override
statement inside a concrete `:global(...)` context. -/
theorem claim_C4_witness :
    resolveNode { global := false, inside := some "global" } (.pseudo "local") =
      .error (.nestedScope ":local" ":global(...)") ∧
    resolveNode { global := false, inside := some "global" }
        (.nested "local" (NL [.cls "x"])) =
      .error (.nestedScope ":local(...)" ":global(...)") :=
  claim_C4.1 { global := false, inside := some "global" } "global" "local"
    (NL [.cls "x"]) rfl rfl rfl

/-- Claim C5: a broad override adjacent to a simple selector without the
required whitespace raises a SpacingError naming the side and keyword:
`.foo :global.bar {}` raises "Missing whitespace after :global" and
`.foo:local .bar {}` raises "Missing whitespace before :local". -/
theorem claim_C5 :
    localize .local [NL [.cls "foo", .spacing " ", .pseudo "global", .cls "bar"]] =
      .error (.spacingAfter "global") ∧
    (Err.spacingAfter "global").message = "Missing whitespace after :global" ∧
    localize .local [NL [.cls "foo", .pseudo "local", .spacing " ", .cls "bar"]] =
      .error (.spacingBefore "local") ∧
    (Err.spacingBefore "local").message = "Missing whitespace before :local" :=
  ⟨by rfl, by rfl, by rfl, by rfl⟩

/-- Claim C6: a broad override applies from the keyword to the end of the
comma-branch or until the next explicit override
(`.foo :global .bar :local .foobar :local .barfoo {}` rewrites to
`:local(.foo) .bar :local(.foobar) :local(.barfoo) {}`), and a comma
boundary resets the context to the configured default mode (after a fully
global first branch, the `.bar` of `.bar :global` is again localized by
the default). -/
theorem claim_C6 :
    (localize .local [NL [.cls "foo", .spacing " ", .pseudo "global", .spacing " ",
        .cls "bar", .spacing " ", .pseudo "local", .spacing " ", .cls "foobar",
        .spacing " ", .pseudo "local", .spacing " ", .cls "barfoo"]]).map strSels =
      .ok ":local(.foo) .bar :local(.foobar) :local(.barfoo)" ∧
    (localize .local [NL [.pseudo "global", .spacing " ", .cls "foo"],
        NL [.cls "bar", .spacing " ", .pseudo "global"]]).map strSels =
      .ok ".foo, :local(.bar)" :=
  ⟨by rfl, by rfl⟩

/-- Claim C7: the transform is idempotent on already-scoped input:
`:local(.foo) :local(.bar)`, `:local(.foo) ~ :local(.bar)` and
`:local(.foo):after` resolve to themselves, hence stringify
byte-identically. -/
theorem claim_C7 :
    localize .local [NL [.nested "local" (NL [.cls "foo"]), .spacing " ",
        .nested "local" (NL [.cls "bar"])]] =
      .ok [NL [.nested "local" (NL [.cls "foo"]), .spacing " ",
        .nested "local" (NL [.cls "bar"])]] ∧
    localize .local [NL [.nested "local" (NL [.cls "foo"]), .op " ~ ",
        .nested "local" (NL [.cls "bar"])]] =
      .ok [NL [.nested "local" (NL [.cls "foo"]), .op " ~ ",
        .nested "local" (NL [.cls "bar"])]] ∧
    localize .local [NL [.nested "local" (NL [.cls "foo"]), .pseudo "after"]] =
      .ok [NL [.nested "local" (NL [.cls "foo"]), .pseudo "after"]] :=
  ⟨by rfl, by rfl, by rfl⟩

/-- Claim C8: pure-mode round trip:
`:global(.foo).bar, [type="radio"] ~ .label, :not(.foo), #bar {}`
rewrites to `.foo:local(.bar), [type="radio"] ~ :local(.label),
:not(:local(.foo)), :local(#bar) {}`: the narrow global unwraps exactly
its argument, each class/id of a compound is wrapped individually,
attribute selectors and combinators pass through, and a non-override
functional pseudo's argument is resolved recursively under the same
mode. -/
theorem claim_C8 :
    (localize .pure [NL [.nested "global" (NL [.cls "foo"]), .cls "bar"],
        NL [.attr "type=\"radio\"", .op " ~ ", .cls "label"],
        NL [.nested "not" (NL [.cls "foo"])],
        NL [.idn "bar"]]).map strSels =
      .ok ".foo:local(.bar), [type=\"radio\"] ~ :local(.label), :not(:local(.foo)), :local(#bar)" :=
  by rfl

/-- Claim C9: a broad override inside the argument of a non-override
functional pseudo is confined to that argument: `.foo:not(:global
.bar).foobar {}` rewrites to `:local(.foo):not(.bar):local(.foobar) {}`
with `.foobar` still locally scoped. -/
theorem claim_C9 :
    (localize .local [NL [.cls "foo",
        .nested "not" (NL [.pseudo "global", .spacing " ", .cls "bar"]),
        .cls "foobar"]]).map strSels =
      .ok ":local(.foo):not(.bar):local(.foobar)" :=
  by rfl

/-- Claim C10: emitted narrow local markers are whitespace-normalized and
a narrow override may be attached without whitespace: under global default
mode `.a:local( .b )`, `.a:local(.b)` and `.a:local.b` all emit
`.a:local(.b)`, and `:local( .a ).b` emits `:local(.a).b`. -/
theorem claim_C10 :
    (localize .global [NL [.cls "a",
        .nested "local" (NL [.spacing " ", .cls "b", .spacing " "])]]).map strSels =
      .ok ".a:local(.b)" ∧
    (localize .global [NL [.cls "a", .nested "local" (NL [.cls "b"])]]).map strSels =
      .ok ".a:local(.b)" ∧
    (localize .global [NL [.cls "a", .pseudo "local", .cls "b"]]).map strSels =
      .ok ".a:local(.b)" ∧
    (localize .global [NL [.nested "local" (NL [.spacing " ", .cls "a", .spacing " "]),
        .cls "b"]]).map strSels =
      .ok ":local(.a).b" :=
  ⟨by rfl, by rfl, by rfl, by rfl⟩
